import Mathlib

/-!
Verification of the wifi download-session simulator.

The repository contains three near-duplicate Go programs. The shared data
model and the two algorithmic components are embedded here over exact
rationals:

* `State`, `SumOfTinState`, `NextState`, `DownloadFile` are direct
  translations of the Go functions of the same names.
* `GenerateBand` is the session-sequence generator of `src/unnamed/part_001`
  (the variant that clamps a drawn dwell time to the session duration and
  appends the remainder only when it is positive).
  `SecondMethod.GenerateBand` is the generator of
  `src/with_2.4g/second_method.go` and `src/unnamed/part_000` (the variant
  that appends an untruncated Disconnect dwell before testing the exit
  condition).
  The Go loop `for { ... }` is unbounded, so both embeddings take a fuel
  argument and return `none` when the loop has not terminated within `fuel`
  iterations.  The transcendental sampler `InverseCDFExponential(u, mean) =
  -mean * log(1-u)` is abstracted by a function parameter `icdf`; `u n` is
  the value of the n-th call to `rand.Float64()`.  The generator's control
  flow depends only on the sampled values, never on the sampler's analytic
  form.
* `SimulateDownload` is the download simulator.  The Go function works by
  mutating the package-level global `remainingSize` (through `DownloadFile`)
  and by printing one record per processed interval; the embedding passes
  the global explicitly and returns the per-interval log (interval paired
  with the value of the global after the decrement) together with the final
  value of the global.
* `MeasureBandwidth` is the average-bandwidth flag of `src/unnamed/part_001`.
  Go divides by `float64(len(states))`, which is NaN for an empty sequence,
  and `NaN > 40` is false; the rational model divides by zero yielding 0,
  and `0 > 40` is false, so the same branch is taken.
* `SimStep` is a small-step execution relation for the simulator loop, used
  to state determinism of a run as uniqueness of the terminal configuration.
* `simulateSpec` and `effectiveSpeed` follow the specification's words for
  the simulator contract and are compared with `SimulateDownload`.
-/

namespace Wifi

/-- A network state and its duration, after the Go struct
`State { state string; T float64 }`.  Durations are modelled as exact
rationals. -/
structure State where
  state : String
  T : ℚ
  deriving DecidableEq, Repr

/-- Go `DownloadFile(value, speed)`: `remainingSize -= speed * value; return
remainingSize`, with the global `remainingSize` passed explicitly. -/
def DownloadFile (value speed remainingSize : ℚ) : ℚ :=
  remainingSize - speed * value

/-- Go `SumOfTinState`: sums the `T` values of a slice of `State`. -/
def SumOfTinState (states : List State) : ℚ :=
  states.foldl (fun sum s => sum + s.T) 0

/-- Go `NextState`: flips `"disconnect"` to `"connect"`, anything else to
`"disconnect"`. -/
def NextState (state : String) : String :=
  if state = "disconnect" then "connect" else "disconnect"

/-- Go (part_001) `if t0 > Ts { t0 = Ts }`: clamp a drawn dwell time to the
session duration. -/
def clampDwell (t Ts : ℚ) : ℚ :=
  if t > Ts then Ts else t

/-- The `for` loop of `GenerateBand` in `src/unnamed/part_001`, one fuel unit
per iteration.  `n` counts calls to `rand.Float64()`; `icdf` abstracts
`InverseCDFExponential`. -/
def GenerateBandLoop (icdf : ℚ → ℚ → ℚ) (u : ℕ → ℚ)
    (expectedValueT0 expectedValueT1 Ts : ℚ) :
    ℕ → ℕ → List State → String → Option (List State)
  | 0, _, _, _ => none
  | fuel + 1, n, states, currentState =>
    if currentState = "disconnect" then
      let t0 := clampDwell (icdf (u n) expectedValueT0) Ts
      if SumOfTinState states + t0 ≥ Ts then
        let remaining := Ts - SumOfTinState states
        if remaining > 0 then some (states ++ [⟨"Disconnect", remaining⟩])
        else some states
      else
        GenerateBandLoop icdf u expectedValueT0 expectedValueT1 Ts fuel (n + 1)
          (states ++ [⟨"Disconnect", t0⟩]) (NextState currentState)
    else
      let t1 := clampDwell (icdf (u n) expectedValueT1) Ts
      if SumOfTinState states + t1 ≥ Ts then
        let remaining := Ts - SumOfTinState states
        if remaining > 0 then some (states ++ [⟨"Connect", remaining⟩])
        else some states
      else
        GenerateBandLoop icdf u expectedValueT0 expectedValueT1 Ts fuel (n + 1)
          (states ++ [⟨"Connect", t1⟩]) (NextState currentState)

/-- `GenerateBand` of `src/unnamed/part_001`: alternating Connect/Disconnect
periods until the total session time `Ts` is reached, starting from
`initialState`, clamping each draw to `Ts` and appending the final remainder
only when it is strictly positive. -/
def GenerateBand (icdf : ℚ → ℚ → ℚ) (u : ℕ → ℚ) (initialState : String)
    (expectedValueT0 expectedValueT1 Ts : ℚ) (fuel : ℕ) : Option (List State) :=
  GenerateBandLoop icdf u expectedValueT0 expectedValueT1 Ts fuel 0 [] initialState

namespace SecondMethod

/-- The `for` loop of `GenerateBand` in `src/with_2.4g/second_method.go` and
`src/unnamed/part_000`: the Disconnect branch appends the untruncated draw
and only then tests the exit condition; the Connect branch truncates to the
remainder on exit (appending it even when it is zero). -/
def GenerateBandLoop (icdf : ℚ → ℚ → ℚ) (u : ℕ → ℚ)
    (expectedValueT0 expectedValueT1 Ts : ℚ) :
    ℕ → ℕ → List State → String → Option (List State)
  | 0, _, _, _ => none
  | fuel + 1, n, states, currentState =>
    if currentState = "disconnect" then
      let t0 := icdf (u n) expectedValueT0
      let states' := states ++ [⟨"Disconnect", t0⟩]
      if SumOfTinState states' ≥ Ts then some states'
      else
        GenerateBandLoop icdf u expectedValueT0 expectedValueT1 Ts fuel (n + 1)
          states' (NextState currentState)
    else
      let t1 := icdf (u n) expectedValueT1
      if SumOfTinState states + t1 ≥ Ts then
        some (states ++ [⟨"Connect", Ts - SumOfTinState states⟩])
      else
        GenerateBandLoop icdf u expectedValueT0 expectedValueT1 Ts fuel (n + 1)
          (states ++ [⟨"Connect", t1⟩]) (NextState currentState)

/-- `GenerateBand` of `src/with_2.4g/second_method.go` / `src/unnamed/part_000`. -/
def GenerateBand (icdf : ℚ → ℚ → ℚ) (u : ℕ → ℚ) (initialState : String)
    (expectedValueT0 expectedValueT1 Ts : ℚ) (fuel : ℕ) : Option (List State) :=
  GenerateBandLoop icdf u expectedValueT0 expectedValueT1 Ts fuel 0 [] initialState

end SecondMethod

/-- One iteration body of the Go `SimulateDownload` loop: pick the total
speed by the interval's state and call `DownloadFile` on the current value of
the global `remainingSize`. -/
def stepVal (wifiSpeed mobileSpeed : ℚ) (s : State) (remainingSize : ℚ) : ℚ :=
  if s.state = "Connect" then DownloadFile s.T (wifiSpeed + mobileSpeed) remainingSize
  else DownloadFile s.T mobileSpeed remainingSize

/-- Go `SimulateDownload`: walk the states in order, decrement the global
through `DownloadFile`, return (early) as soon as the global is `≤ 0` after a
decrement.  The embedding passes the global explicitly and returns the
per-interval log (each processed interval paired with the global's value
after its decrement, as printed by the Go code) together with the final
value of the global. -/
def SimulateDownload : List State → ℚ → ℚ → ℚ → List (State × ℚ) × ℚ
  | [], _, _, remainingSize => ([], remainingSize)
  | s :: rest, wifiSpeed, mobileSpeed, remainingSize =>
    let r' := stepVal wifiSpeed mobileSpeed s remainingSize
    if r' ≤ 0 then ([(s, r')], r')
    else
      let res := SimulateDownload rest wifiSpeed mobileSpeed r'
      ((s, r') :: res.1, res.2)

/-- Go `MeasureBandwidth` of `src/unnamed/part_001`: accumulate
`wifiSpeed + mobileSpeed` per Connect interval and `mobileSpeed` per
Disconnect interval, divide by the number of intervals, return 1 when the
average exceeds 40 and 0 otherwise.  For the empty sequence Go computes
`0.0 / 0` (NaN) and `NaN > 40` is false; in the rational model `0 / 0 = 0`
and `0 > 40` is false, so the returned flag is 0 either way. -/
def MeasureBandwidth (states : List State) (wifiSpeed mobileSpeed : ℚ) : Int :=
  let totalb := states.foldl
    (fun acc s =>
      if s.state = "Connect" then acc + (wifiSpeed + mobileSpeed)
      else if s.state = "Disconnect" then acc + mobileSpeed
      else acc) 0
  let avgBandwidth := totalb / (states.length : ℚ)
  if avgBandwidth > 40 then 1 else 0

/-- The kind string appended by the generator when the current state is
`cur`: capitalised `"Disconnect"` exactly when `cur = "disconnect"`. -/
def curKind (cur : String) : String :=
  if cur = "disconnect" then "Disconnect" else "Connect"

/-- Follows the specification's words for the simulator contract: the
effective speed is `wifiSpeed + mobileSpeed` if the kind is Connect, else
`mobileSpeed` alone. -/
def effectiveSpeed (wifiSpeed mobileSpeed : ℚ) (kind : String) : ℚ :=
  if kind = "Connect" then wifiSpeed + mobileSpeed else mobileSpeed

/-- Follows the specification's words for the simulator contract: for each
interval in order decrement `remainingPayload -= effectiveSpeed * duration`
and stop iterating as soon as `remainingPayload ≤ 0`. -/
def simulateSpec : List State → ℚ → ℚ → ℚ → ℚ
  | [], _, _, remainingPayload => remainingPayload
  | s :: rest, wifiSpeed, mobileSpeed, remainingPayload =>
    let r' := remainingPayload - effectiveSpeed wifiSpeed mobileSpeed s.state * s.T
    if r' ≤ 0 then r' else simulateSpec rest wifiSpeed mobileSpeed r'

/-- A configuration of the simulator loop: the intervals still pending, the
current value of the global `remainingSize`, and the log of records printed
so far. -/
structure SimConfig where
  pending : List State
  remaining : ℚ
  log : List (State × ℚ)
  deriving DecidableEq, Repr

/-- Small-step execution relation of the `SimulateDownload` loop: one step
processes the head interval; when the decremented global is `≤ 0` the loop
returns early (no pending intervals remain), otherwise execution continues
with the tail. -/
inductive SimStep (wifiSpeed mobileSpeed : ℚ) : SimConfig → SimConfig → Prop
  | done (s : State) (rest : List State) (r : ℚ) (log : List (State × ℚ)) :
      stepVal wifiSpeed mobileSpeed s r ≤ 0 →
      SimStep wifiSpeed mobileSpeed ⟨s :: rest, r, log⟩
        ⟨[], stepVal wifiSpeed mobileSpeed s r,
          log ++ [(s, stepVal wifiSpeed mobileSpeed s r)]⟩
  | cont (s : State) (rest : List State) (r : ℚ) (log : List (State × ℚ)) :
      ¬ stepVal wifiSpeed mobileSpeed s r ≤ 0 →
      SimStep wifiSpeed mobileSpeed ⟨s :: rest, r, log⟩
        ⟨rest, stepVal wifiSpeed mobileSpeed s r,
          log ++ [(s, stepVal wifiSpeed mobileSpeed s r)]⟩

/-! Helper lemmas shared by the claim theorems. -/

/-- Appending one state adds its duration to the sum. -/
theorem SumOfTinState_concat (l : List State) (x : State) :
    SumOfTinState (l ++ [x]) = SumOfTinState l + x.T := by
  simp [SumOfTinState, List.foldl_append]

/-- Pushing an element whose relation to the previous last element holds
preserves `Chain'`. -/
theorem chain'_push {l : List State} {a : State}
    (hC : List.Chain' (fun x y => x.state ≠ y.state) l)
    (hL : ∀ x, l.getLast? = some x → x.state ≠ a.state) :
    List.Chain' (fun x y => x.state ≠ y.state) (l ++ [a]) := by
  rw [List.chain'_append]
  refine ⟨hC, List.chain'_singleton a, ?_⟩
  intro x hx y hy
  simp only [List.head?_cons, Option.mem_def, Option.some.injEq] at hy
  subst hy
  exact hL x (by simpa using hx)

/-- The kind appended after flipping the current state differs from the kind
appended before the flip. -/
theorem curKind_nextState (cur : String) : curKind (NextState cur) ≠ curKind cur := by
  by_cases h : cur = "disconnect"
  · subst h; decide
  · simp only [curKind, NextState, if_neg h]
    decide

/-- The one-iteration decrement of the simulator agrees with the
specification's `effectiveSpeed` formulation. -/
theorem stepVal_eq_spec (w m : ℚ) (s : State) (r : ℚ) :
    stepVal w m s r = r - effectiveSpeed w m s.state * s.T := by
  by_cases h : s.state = "Connect" <;>
    simp [stepVal, DownloadFile, effectiveSpeed, h]

/-- With non-negative speeds and a non-negative duration, one simulator step
does not increase the remaining payload. -/
theorem stepVal_le (w m : ℚ) (s : State) (r : ℚ)
    (hw : 0 ≤ w) (hm : 0 ≤ m) (hT : 0 ≤ s.T) : stepVal w m s r ≤ r := by
  unfold stepVal DownloadFile
  split
  · nlinarith
  · nlinarith

/-- Loop invariant for the part_001 generator: an alternating accumulated
list whose last kind differs from the kind about to be appended stays
alternating in any terminating run. -/
theorem generateBandLoop_chain'_aux (icdf : ℚ → ℚ → ℚ) (u : ℕ → ℚ) (T0 T1 Ts : ℚ) :
    ∀ (fuel n : ℕ) (states : List State) (cur : String) (L : List State),
      List.Chain' (fun a b => a.state ≠ b.state) states →
      (∀ x, states.getLast? = some x → x.state ≠ curKind cur) →
      GenerateBandLoop icdf u T0 T1 Ts fuel n states cur = some L →
      List.Chain' (fun a b => a.state ≠ b.state) L := by
  intro fuel
  induction fuel with
  | zero =>
    intro n states cur L _ _ h
    simp [GenerateBandLoop] at h
  | succ fuel ih =>
    intro n states cur L hC hL hRun
    simp only [GenerateBandLoop] at hRun
    by_cases hcur : cur = "disconnect"
    · rw [if_pos hcur] at hRun
      have hcurK : curKind cur = "Disconnect" := by rw [hcur]; decide
      split_ifs at hRun with hge hpos
      · rw [Option.some.injEq] at hRun
        subst hRun
        exact chain'_push hC (fun x hx => by rw [← hcurK]; exact hL x hx)
      · rw [Option.some.injEq] at hRun
        subst hRun
        exact hC
      · refine ih (n + 1) _ (NextState cur) L
          (chain'_push hC (fun x hx => by rw [← hcurK]; exact hL x hx)) ?_ hRun
        intro x hx
        rw [List.getLast?_concat, Option.some.injEq] at hx
        subst hx
        show "Disconnect" ≠ curKind (NextState cur)
        rw [← hcurK]
        exact (curKind_nextState cur).symm
    · rw [if_neg hcur] at hRun
      have hcurK : curKind cur = "Connect" := by simp [curKind, hcur]
      split_ifs at hRun with hge hpos
      · rw [Option.some.injEq] at hRun
        subst hRun
        exact chain'_push hC (fun x hx => by rw [← hcurK]; exact hL x hx)
      · rw [Option.some.injEq] at hRun
        subst hRun
        exact hC
      · refine ih (n + 1) _ (NextState cur) L
          (chain'_push hC (fun x hx => by rw [← hcurK]; exact hL x hx)) ?_ hRun
        intro x hx
        rw [List.getLast?_concat, Option.some.injEq] at hx
        subst hx
        show "Connect" ≠ curKind (NextState cur)
        rw [← hcurK]
        exact (curKind_nextState cur).symm

/-- Loop invariant for the part_001 generator: a terminating run from a
non-empty accumulated list, or one whose accumulated duration is still below
`Ts`, returns a non-empty list. -/
theorem generateBandLoop_ne_nil (icdf : ℚ → ℚ → ℚ) (u : ℕ → ℚ) (T0 T1 Ts : ℚ) :
    ∀ (fuel n : ℕ) (states : List State) (cur : String) (L : List State),
      (states ≠ [] ∨ SumOfTinState states < Ts) →
      GenerateBandLoop icdf u T0 T1 Ts fuel n states cur = some L → L ≠ [] := by
  intro fuel
  induction fuel with
  | zero => intro n states cur L _ h; simp [GenerateBandLoop] at h
  | succ fuel ih =>
    intro n states cur L hyp hRun
    simp only [GenerateBandLoop] at hRun
    by_cases hcur : cur = "disconnect"
    · rw [if_pos hcur] at hRun
      split_ifs at hRun with hge hpos
      · rw [Option.some.injEq] at hRun; subst hRun; simp
      · rw [Option.some.injEq] at hRun; subst hRun
        rcases hyp with hne | hlt
        · exact hne
        · exfalso; linarith
      · exact ih _ _ _ L (Or.inl (by simp)) hRun
    · rw [if_neg hcur] at hRun
      split_ifs at hRun with hge hpos
      · rw [Option.some.injEq] at hRun; subst hRun; simp
      · rw [Option.some.injEq] at hRun; subst hRun
        rcases hyp with hne | hlt
        · exact hne
        · exfalso; linarith
      · exact ih _ _ _ L (Or.inl (by simp)) hRun

/-- The second_method generator's loop always appends before breaking, so any
terminating run returns a non-empty list. -/
theorem secondMethodLoop_ne_nil (icdf : ℚ → ℚ → ℚ) (u : ℕ → ℚ) (T0 T1 Ts : ℚ) :
    ∀ (fuel n : ℕ) (states : List State) (cur : String) (L : List State),
      SecondMethod.GenerateBandLoop icdf u T0 T1 Ts fuel n states cur = some L →
      L ≠ [] := by
  intro fuel
  induction fuel with
  | zero => intro n states cur L h; simp [SecondMethod.GenerateBandLoop] at h
  | succ fuel ih =>
    intro n states cur L hRun
    simp only [SecondMethod.GenerateBandLoop] at hRun
    by_cases hcur : cur = "disconnect"
    · rw [if_pos hcur] at hRun
      split_ifs at hRun with hge
      · rw [Option.some.injEq] at hRun; subst hRun; simp
      · exact ih _ _ _ L hRun
    · rw [if_neg hcur] at hRun
      split_ifs at hRun with hge
      · rw [Option.some.injEq] at hRun; subst hRun; simp
      · exact ih _ _ _ L hRun

/-- Loop invariant for the part_001 generator: if the accumulated duration is
still strictly below `Ts`, any terminating run returns a list whose durations
sum to exactly `Ts`. -/
theorem generateBandLoop_sum (icdf : ℚ → ℚ → ℚ) (u : ℕ → ℚ) (T0 T1 Ts : ℚ) :
    ∀ (fuel n : ℕ) (states : List State) (cur : String) (L : List State),
      SumOfTinState states < Ts →
      GenerateBandLoop icdf u T0 T1 Ts fuel n states cur = some L →
      SumOfTinState L = Ts := by
  intro fuel
  induction fuel with
  | zero => intro n states cur L _ h; simp [GenerateBandLoop] at h
  | succ fuel ih =>
    intro n states cur L hlt hRun
    simp only [GenerateBandLoop] at hRun
    by_cases hcur : cur = "disconnect"
    · rw [if_pos hcur] at hRun
      split_ifs at hRun with hge hpos
      · rw [Option.some.injEq] at hRun; subst hRun
        rw [SumOfTinState_concat]
        show SumOfTinState states + (Ts - SumOfTinState states) = Ts
        ring
      · exfalso; linarith
      · refine ih _ _ _ L ?_ hRun
        rw [SumOfTinState_concat]
        push_neg at hge
        show SumOfTinState states + clampDwell (icdf (u n) T0) Ts < Ts
        linarith
    · rw [if_neg hcur] at hRun
      split_ifs at hRun with hge hpos
      · rw [Option.some.injEq] at hRun; subst hRun
        rw [SumOfTinState_concat]
        show SumOfTinState states + (Ts - SumOfTinState states) = Ts
        ring
      · exfalso; linarith
      · refine ih _ _ _ L ?_ hRun
        rw [SumOfTinState_concat]
        push_neg at hge
        show SumOfTinState states + clampDwell (icdf (u n) T1) Ts < Ts
        linarith

/-- The part_001 generator satisfies the exact-sum invariant: for a positive
session duration, any terminating run returns intervals whose durations sum
to exactly `Ts` (the behaviour the specification mandates, which the
second_method variant violates). -/
theorem generateBand_sum (icdf : ℚ → ℚ → ℚ) (u : ℕ → ℚ) (init : String)
    (T0 T1 Ts : ℚ) (fuel : ℕ) (L : List State) (hTs : 0 < Ts)
    (h : GenerateBand icdf u init T0 T1 Ts fuel = some L) :
    SumOfTinState L = Ts := by
  refine generateBandLoop_sum icdf u T0 T1 Ts fuel 0 [] init L ?_ h
  simpa [SumOfTinState] using hTs

/-- The final remaining payload computed by the simulator agrees with the
specification's formulation by effective speeds. -/
theorem simulateDownload_snd_eq (w m : ℚ) :
    ∀ (states : List State) (r : ℚ),
      (SimulateDownload states w m r).2 = simulateSpec states w m r := by
  intro states
  induction states with
  | nil => intro r; rfl
  | cons s rest ih =>
    intro r
    simp only [SimulateDownload, simulateSpec, ← stepVal_eq_spec]
    by_cases h : stepVal w m s r ≤ 0
    · rw [if_pos h, if_pos h]
    · rw [if_neg h, if_neg h]
      exact ih _

/-- Once a non-empty run has driven the payload to `≤ 0`, appending further
intervals changes neither the log nor the final payload. -/
theorem simulateDownload_stop_append (w m : ℚ) (extra : List State) :
    ∀ (states : List State) (r : ℚ), states ≠ [] →
      (SimulateDownload states w m r).2 ≤ 0 →
      SimulateDownload (states ++ extra) w m r = SimulateDownload states w m r := by
  intro states
  induction states with
  | nil => intro r h _; exact absurd rfl h
  | cons s rest ih =>
    intro r _ hle
    by_cases h : stepVal w m s r ≤ 0
    · simp only [List.cons_append, SimulateDownload, if_pos h]
    · have hrest : rest ≠ [] := by
        intro hnil
        subst hnil
        simp only [SimulateDownload, if_neg h] at hle
        exact h hle
      have hle' : (SimulateDownload rest w m (stepVal w m s r)).2 ≤ 0 := by
        simpa only [SimulateDownload, if_neg h] using hle
      simp only [List.cons_append, SimulateDownload, if_neg h, List.append_eq,
        ih (stepVal w m s r) hrest hle']

/-- The payload values logged by the simulator form a non-increasing chain
starting from the initial payload. -/
theorem simulateDownload_chain_le (w m : ℚ) (hw : 0 ≤ w) (hm : 0 ≤ m) :
    ∀ (states : List State), (∀ s ∈ states, 0 ≤ s.T) → ∀ r,
      List.Chain (fun a b => b ≤ a) r
        ((SimulateDownload states w m r).1.map Prod.snd) := by
  intro states
  induction states with
  | nil =>
    intro _ r
    simp only [SimulateDownload, List.map_nil]
    exact List.Chain.nil
  | cons s rest ih =>
    intro hT r
    have hstep : stepVal w m s r ≤ r := stepVal_le w m s r hw hm (hT s (by simp))
    by_cases h : stepVal w m s r ≤ 0
    · simp only [SimulateDownload, if_pos h, List.map_cons, List.map_nil]
      exact List.Chain.cons hstep List.Chain.nil
    · simp only [SimulateDownload, if_neg h, List.map_cons]
      exact List.Chain.cons hstep (ih (fun x hx => hT x (by simp [hx])) _)

/-- Any execution of the simulator's step relation that ends with no pending
intervals ends in the configuration computed by `SimulateDownload`. -/
theorem reaches_pending_nil (w m : ℚ) :
    ∀ (c c' : SimConfig), Relation.ReflTransGen (SimStep w m) c c' → c'.pending = [] →
      c' = ⟨[], (SimulateDownload c.pending w m c.remaining).2,
            c.log ++ (SimulateDownload c.pending w m c.remaining).1⟩ := by
  intro c c' h
  induction h using Relation.ReflTransGen.head_induction_on with
  | refl =>
    intro hd
    cases c' with
    | mk p r lg =>
      simp only at hd
      subst hd
      simp [SimulateDownload]
  | head hstep hrest ih =>
    intro hd
    cases hstep with
    | done s rest r log hle =>
      rw [ih hd]
      simp [SimulateDownload, if_pos hle]
    | cont s rest r log hgt =>
      rw [ih hd]
      simp [SimulateDownload, if_neg hgt, List.append_assoc]

/-! Claim theorems. -/

/-- C1: against the claim that every GenerateBand variant clamps the final
interval so durations sum to exactly `Ts`, the second_method / part_000
variant appends the untruncated Disconnect draw: with `Ts = 3` and a first
drawn dwell of `5` (realised by `InverseCDFExponential` at
`u = 1 - exp (-1/12)` with mean 60) it returns a single interval of duration
5, whose sum 5 overshoots the session duration 3. -/
theorem secondMethod_generateBand_overshoots :
    SecondMethod.GenerateBand (fun _ _ => 5) (fun _ => 0) "disconnect" 60 40 3 1 =
      some [⟨"Disconnect", 5⟩] ∧
    3 < SumOfTinState [⟨"Disconnect", 5⟩] := by
  constructor
  · norm_num [SecondMethod.GenerateBand, SecondMethod.GenerateBandLoop, SumOfTinState,
      List.foldl_cons, List.foldl_nil]
  · norm_num [SumOfTinState, List.foldl_cons, List.foldl_nil]

/-- C5: against the claim that `Ts = 0` yields an empty sequence, the
second_method / part_000 variant of GenerateBand run at `Ts = 0` from the
disconnect state appends the whole first Disconnect draw (here 7) and
returns a non-empty one-interval sequence. -/
theorem secondMethod_generateBand_ts_zero_nonempty :
    SecondMethod.GenerateBand (fun _ _ => 7) (fun _ => 0) "disconnect" 60 40 0 1 =
      some [⟨"Disconnect", 7⟩] ∧
    ([⟨"Disconnect", 7⟩] : List State) ≠ [] := by
  constructor
  · norm_num [SecondMethod.GenerateBand, SecondMethod.GenerateBandLoop, SumOfTinState,
      List.foldl_cons, List.foldl_nil]
  · decide

/-- C7: against the claim that the average-bandwidth computation explicitly
guards the empty-sequence division, `MeasureBandwidth` on the empty sequence
silently evaluates the degenerate division (NaN in Go, with `NaN > 40`
false; `0 / 0 = 0` here, with `0 > 40` false) and returns flag 0,
indistinguishable from an ordinary unflagged run such as a single
Disconnect interval at mobile speed 39. -/
theorem measureBandwidth_empty_unguarded :
    MeasureBandwidth [] 60 40 = 0 ∧ MeasureBandwidth [⟨"Disconnect", 5⟩] 60 39 = 0 := by
  constructor
  · norm_num [MeasureBandwidth]
  · norm_num [MeasureBandwidth, List.foldl_cons, List.foldl_nil]; decide

/-- C6 counterexample: against the claim that the simulator returns
immediately with zero intervals processed and the remaining payload
unchanged when the initial payload is `≤ 0`, running it with initial payload
0 on one Connect interval of duration 5 at speeds (1, 0) produces a
non-empty log and changes the remaining payload (to -5). -/
theorem simulateDownload_zero_payload_processes :
    (SimulateDownload [⟨"Connect", 5⟩] 1 0 0).1 ≠ [] ∧
    (SimulateDownload [⟨"Connect", 5⟩] 1 0 0).2 ≠ 0 := by
  constructor
  · norm_num [SimulateDownload, stepVal, DownloadFile]
  · norm_num [SimulateDownload, stepVal, DownloadFile]

/-- C6 amended: with a non-positive initial payload, non-negative speeds and
non-negative durations, the simulator does not return before the loop body:
the final remaining payload is non-positive (the run counts as complete);
on an empty sequence it returns the payload unchanged with an empty log;
and on a non-empty sequence it processes exactly the first interval — the
returned log is exactly the one record for that interval, and the final
payload equals the initial payload decremented by that interval's download
(`stepVal`, i.e. `DownloadFile` at the interval's effective speed), after
which the post-decrement check fires and the loop stops. -/
theorem simulateDownload_nonpos_payload (states : List State) (w m r : ℚ)
    (hr : r ≤ 0) (hw : 0 ≤ w) (hm : 0 ≤ m) (hT : ∀ s ∈ states, 0 ≤ s.T) :
    (SimulateDownload states w m r).2 ≤ 0 ∧
    (states = [] → SimulateDownload states w m r = ([], r)) ∧
    (∀ s rest, states = s :: rest →
      SimulateDownload states w m r =
        ([(s, stepVal w m s r)], stepVal w m s r)) := by
  cases states with
  | nil =>
    refine ⟨by simpa [SimulateDownload] using hr, fun _ => rfl, ?_⟩
    intro s rest heq
    exact absurd heq (by simp)
  | cons s rest =>
    have h : stepVal w m s r ≤ 0 :=
      le_trans (stepVal_le w m s r hw hm (hT s (by simp))) hr
    refine ⟨by simpa [SimulateDownload, if_pos h] using h, fun heq => by simp at heq, ?_⟩
    intro s' rest' heq
    cases heq
    simp [SimulateDownload, if_pos h]

/-- C6 witness: at initial payload -1 with one Disconnect interval of
duration 3 and speeds (1, 2), exactly one record is logged and the payload
is decremented by the first interval to -7, which is non-positive. -/
theorem simulateDownload_nonpos_payload_witness :
    (SimulateDownload [⟨"Disconnect", 3⟩] 1 2 (-1)).2 ≤ 0 ∧
    SimulateDownload [⟨"Disconnect", 3⟩] 1 2 (-1) =
      ([(⟨"Disconnect", 3⟩, -7)], -7) := by
  have h := simulateDownload_nonpos_payload [⟨"Disconnect", 3⟩] 1 2 (-1)
    (by decide) (by decide) (by decide) (by decide)
  refine ⟨h.1, ?_⟩
  have hv : stepVal 1 2 ⟨"Disconnect", 3⟩ (-1) = -7 := by
    norm_num [stepVal, DownloadFile]
    decide
  rw [h.2.2 ⟨"Disconnect", 3⟩ [] rfl, hv]

/-- C2: the simulator processes intervals in order with the specified
decrements — its final payload coincides with the spec-side
`simulateSpec`, which decrements by `(wifiSpeed + mobileSpeed) * duration`
for Connect intervals and `mobileSpeed * duration` otherwise and stops as
soon as the payload is `≤ 0` — and once a non-empty run has driven the
payload to `≤ 0`, any intervals appended after that point leave the log and
the remaining payload unchanged. -/
theorem simulateDownload_processes_in_order (states extra : List State) (w m r : ℚ) :
    (SimulateDownload states w m r).2 = simulateSpec states w m r ∧
    (states ≠ [] → (SimulateDownload states w m r).2 ≤ 0 →
      SimulateDownload (states ++ extra) w m r = SimulateDownload states w m r) :=
  ⟨simulateDownload_snd_eq w m states r,
   fun hne hle => simulateDownload_stop_append w m extra states r hne hle⟩

/-- C2 witness: one Connect interval of duration 3 at speeds (2, 0) drives
payload 4 to -2, and an appended Disconnect interval of duration 9 changes
nothing. -/
theorem simulateDownload_processes_in_order_witness :
    (SimulateDownload [⟨"Connect", 3⟩] 2 0 4).2 = simulateSpec [⟨"Connect", 3⟩] 2 0 4 ∧
    SimulateDownload ([⟨"Connect", 3⟩] ++ [⟨"Disconnect", 9⟩]) 2 0 4 =
      SimulateDownload [⟨"Connect", 3⟩] 2 0 4 :=
  ⟨(simulateDownload_processes_in_order [⟨"Connect", 3⟩] [⟨"Disconnect", 9⟩] 2 0 4).1,
   (simulateDownload_processes_in_order [⟨"Connect", 3⟩] [⟨"Disconnect", 9⟩] 2 0 4).2
     (by decide) (by norm_num [SimulateDownload, stepVal, DownloadFile])⟩

/-- C3: every sequence returned by the part_001 generator strictly
alternates interval kinds — no two adjacent intervals carry the same state
string, for any initial state, sampler, draws, dwell means, session
duration, and fuel. -/
theorem generateBand_alternates (icdf : ℚ → ℚ → ℚ) (u : ℕ → ℚ) (init : String)
    (T0 T1 Ts : ℚ) (fuel : ℕ) (L : List State)
    (h : GenerateBand icdf u init T0 T1 Ts fuel = some L) :
    List.Chain' (fun a b => a.state ≠ b.state) L :=
  generateBandLoop_chain'_aux icdf u T0 T1 Ts fuel 0 [] init L List.chain'_nil
    (fun x hx => by simp at hx) h

/-- C3 witness: a concrete two-interval run with constant dwell draws,
Ts = 2, means 1 and 1, starting from disconnect. -/
theorem generateBand_alternates_witness :
    List.Chain' (fun a b : State => a.state ≠ b.state)
      [⟨"Disconnect", 1⟩, ⟨"Connect", 1⟩] :=
  generateBand_alternates (fun _ x => x) (fun _ => 0) "disconnect" 1 1 2 2
    [⟨"Disconnect", 1⟩, ⟨"Connect", 1⟩]
    (by norm_num [GenerateBand, GenerateBandLoop, SumOfTinState, clampDwell, NextState,
      List.foldl_cons, List.foldl_nil]; decide)

/-- C4: with non-negative speeds and non-negative interval durations, the
remaining payload is non-increasing step to step: the initial payload
followed by the logged payload values forms a descending chain. -/
theorem simulateDownload_monotone (states : List State) (w m r : ℚ)
    (hw : 0 ≤ w) (hm : 0 ≤ m) (hT : ∀ s ∈ states, 0 ≤ s.T) :
    List.Chain (fun a b => b ≤ a) r
      ((SimulateDownload states w m r).1.map Prod.snd) :=
  simulateDownload_chain_le w m hw hm states hT r

/-- C4 witness: payload 5, one Disconnect interval of duration 2 at mobile
speed 1. -/
theorem simulateDownload_monotone_witness :
    List.Chain (fun a b : ℚ => b ≤ a) 5
      ((SimulateDownload [⟨"Disconnect", 2⟩] 0 1 5).1.map Prod.snd) :=
  simulateDownload_monotone [⟨"Disconnect", 2⟩] 0 1 5 (by decide) (by decide) (by decide)

/-- C9: the simulator is deterministic in its inputs — any two complete
executions of the step relation from the same sequence, speeds, and initial
payload end in the same configuration, whose final payload and log are
exactly those computed by `SimulateDownload`; the only mutable state (the
`remainingSize` global) is part of the configuration, so nothing outside
the inputs can influence the result. -/
theorem simulate_deterministic (w m : ℚ) (states : List State) (r : ℚ)
    (c₁ c₂ : SimConfig)
    (h₁ : Relation.ReflTransGen (SimStep w m) ⟨states, r, []⟩ c₁) (hd₁ : c₁.pending = [])
    (h₂ : Relation.ReflTransGen (SimStep w m) ⟨states, r, []⟩ c₂) (hd₂ : c₂.pending = []) :
    c₁ = c₂ ∧ c₁.remaining = (SimulateDownload states w m r).2 ∧
      c₁.log = (SimulateDownload states w m r).1 := by
  have e₁ := reaches_pending_nil w m ⟨states, r, []⟩ c₁ h₁ hd₁
  have e₂ := reaches_pending_nil w m ⟨states, r, []⟩ c₂ h₂ hd₂
  simp only [List.nil_append] at e₁ e₂
  rw [e₁, e₂]
  simp

/-- C9 witness: two identical one-step executions from payload 1 over a
single Connect interval of duration 2 at speeds (1, 0). -/
theorem simulate_deterministic_witness :
    (⟨[], -1, [(⟨"Connect", 2⟩, -1)]⟩ : SimConfig) = ⟨[], -1, [(⟨"Connect", 2⟩, -1)]⟩ ∧
    (-1 : ℚ) = (SimulateDownload [⟨"Connect", 2⟩] 1 0 1).2 ∧
    [((⟨"Connect", 2⟩ : State), (-1 : ℚ))] = (SimulateDownload [⟨"Connect", 2⟩] 1 0 1).1 := by
  have hv : stepVal 1 0 ⟨"Connect", 2⟩ 1 = -1 := by norm_num [stepVal, DownloadFile]
  have h0 : stepVal 1 0 ⟨"Connect", 2⟩ 1 ≤ 0 := by rw [hv]; decide
  have hstep0 : SimStep 1 0 ⟨[⟨"Connect", 2⟩], 1, []⟩
      ⟨[], stepVal 1 0 ⟨"Connect", 2⟩ 1,
        [] ++ [(⟨"Connect", 2⟩, stepVal 1 0 ⟨"Connect", 2⟩ 1)]⟩ :=
    SimStep.done ⟨"Connect", 2⟩ [] 1 [] h0
  rw [hv] at hstep0
  simp only [List.nil_append] at hstep0
  have hchain := Relation.ReflTransGen.single hstep0
  exact simulate_deterministic 1 0 [⟨"Connect", 2⟩] 1 _ _ hchain rfl hchain rfl

/-- C10: for a strictly positive session duration, any terminating run of
either GenerateBand variant returns at least one interval. -/
theorem generateBand_nonempty (icdf : ℚ → ℚ → ℚ) (u : ℕ → ℚ) (init : String)
    (T0 T1 Ts : ℚ) (fuel : ℕ) (L L' : List State) (hTs : 0 < Ts)
    (h : GenerateBand icdf u init T0 T1 Ts fuel = some L)
    (h' : SecondMethod.GenerateBand icdf u init T0 T1 Ts fuel = some L') :
    L ≠ [] ∧ L' ≠ [] :=
  ⟨generateBandLoop_ne_nil icdf u T0 T1 Ts fuel 0 [] init L
      (Or.inr (by simpa [SumOfTinState] using hTs)) h,
   secondMethodLoop_ne_nil icdf u T0 T1 Ts fuel 0 [] init L' h'⟩

/-- C10 witness: both variants at Ts = 2 with constant unit dwell draws
return the two-interval sequence Disconnect then Connect. -/
theorem generateBand_nonempty_witness :
    ([⟨"Disconnect", 1⟩, ⟨"Connect", 1⟩] : List State) ≠ [] ∧
    ([⟨"Disconnect", 1⟩, ⟨"Connect", 1⟩] : List State) ≠ [] :=
  generateBand_nonempty (fun _ x => x) (fun _ => 0) "disconnect" 1 1 2 2
    [⟨"Disconnect", 1⟩, ⟨"Connect", 1⟩] [⟨"Disconnect", 1⟩, ⟨"Connect", 1⟩]
    (by decide)
    (by norm_num [GenerateBand, GenerateBandLoop, SumOfTinState, clampDwell, NextState,
      List.foldl_cons, List.foldl_nil]; decide)
    (by norm_num [SecondMethod.GenerateBand, SecondMethod.GenerateBandLoop, SumOfTinState,
      NextState, List.foldl_cons, List.foldl_nil]; decide)

end Wifi
